import Mathlib

/-!
Verification development for the `task_hii_osm_csv` repository
(`src/raster_utils.py` and `src/task.py`).

The Python source is shallowly embedded below: pure helper functions become
Lean functions, the streaming sharder becomes explicit state passing, and
fallible code (`str.rindex`, `raise ValueError`) returns `Except`.
Python's arbitrary-precision ints are `Nat`/`Int`; quantities that the source
keeps non-negative are `Nat`, quantities that can go negative (`new_image_width`
in `split_image`) are `Int`.  `int(ceil(a * 1.0 / b))` on the non-negative
ints appearing here is embedded as exact ceiling division `ceilDiv`.
-/

set_option maxRecDepth 10000

/-- Exact embedding of `int(ceil(a * 1.0 / b))` for non-negative `a` and
positive `b` (`math.ceil` of the exact quotient). -/
def ceilDiv (a b : Nat) : Nat := (a + b - 1) / b

/-- Embedding of `rasterio.windows.Window(col_off, row_off, width, height)` as produced by
`get_windows` in `raster_utils.py`. -/
structure Window where
  col_off : Nat
  row_off : Nat
  width : Nat
  height : Nat
deriving DecidableEq, Repr

/-- The clipping arithmetic of `get_windows` (`raster_utils.py` lines 46-58),
identical for the x and y dimensions: given the grid dimension, the nominal
tile size and the running origin (`offset_x` resp. `offset_y`), produce the
emitted tile size.  The first branch is the defensive fallback that returns
the full dimension when the origin lies beyond the grid. -/
def clip_size (dim size off : Nat) : Nat :=
  if off > dim then dim
  else if off + size < dim then size
  else dim - off

/-- Inner loop of `get_windows` (`for _ in range(num_windows_w)`): `count`
iterations remain, `offset_x` is the running x origin, `offset_y` the current
row's y origin, `off` the constant `offset` parameter. -/
def get_windows_inner (width height size : Nat) (off : Nat × Nat)
    (offset_y : Nat) : Nat → Nat → List Window
  | 0, _ => []
  | count + 1, offset_x =>
      ⟨offset_x + off.1, offset_y + off.2,
        clip_size width size offset_x, clip_size height size offset_y⟩
        :: get_windows_inner width height size off offset_y count (offset_x + size)

/-- Outer loop of `get_windows` (`for _ in range(num_windows_h)`): each
iteration resets `offset_x` to 0, runs the inner loop, then advances
`offset_y` by `size`. -/
def get_windows_rows (width height size : Nat) (off : Nat × Nat)
    (num_w : Nat) : Nat → Nat → List Window
  | 0, _ => []
  | count + 1, offset_y =>
      get_windows_inner width height size off offset_y num_w 0
        ++ get_windows_rows width height size off num_w count (offset_y + size)

/-- Embedding of `get_windows(width, height, size, offset)` from `raster_utils.py`
(lines 29-62): `num_windows_w = ceil(width/size)` columns by
`num_windows_h = ceil(height/size)` rows of clipped windows, row-major. -/
def get_windows (width height size : Nat) (off : Nat × Nat) : List Window :=
  get_windows_rows width height size off
    (ceilDiv width size) (ceilDiv height size) 0

/-- One `ImageStackMetadata` as populated by `split_image`
(`raster_utils.py`): the parts of the object that carry the window planning.
`strip_width` is `new_image_width`, an `Int` because the Python expression
`width - (split_img_width * (n - 1))` can go negative. -/
structure StripMeta where
  x_read_offset : Nat
  strip_width : Int
  read_windows : List Window
  write_windows : List Window
deriving DecidableEq, Repr

/-- Embedding of `split_image(image_paths, num_splits, window_size)` from
`raster_utils.py` (lines 117-179), restricted to its window/width planning:
the raster's profile `width`/`height` are passed as the first two arguments
(the file I/O and geotransform updates act on external rasterio objects).
`num_splits < 1` raises `ValueError`, embedded as `.error ()`.
For `num_splits == 1` a single full-raster plan with aliased read/write
window lists is returned.  Otherwise strip `n` gets
`x_read_offset = split_img_width * n` and width `new_image_width` computed
by the source's `split_img_width * n > width` test; `get_windows` is called
on `new_image_width` (negative widths produce `range(ceil(negative)) = []`,
matched by `Int.toNat` sending negatives to 0). -/
def split_image (width height : Nat) (num_splits window_size : Nat) :
    Except Unit (List StripMeta) :=
  if num_splits < 1 then .error ()
  else if num_splits = 1 then
    .ok [⟨0, (width : Int), [⟨0, 0, width, height⟩], [⟨0, 0, width, height⟩]⟩]
  else
    .ok ((List.range num_splits).map (fun n =>
      let split_img_width := ceilDiv width num_splits
      let x_read_offset := split_img_width * n
      let new_image_width : Int :=
        if split_img_width * n > width then
          (width : Int) - (split_img_width : Int) * ((n : Int) - 1)
        else (split_img_width : Int)
      ⟨x_read_offset, new_image_width,
        get_windows new_image_width.toNat height window_size (x_read_offset, 0),
        get_windows new_image_width.toNat height window_size (0, 0)⟩))

/-- A raster chunk as read by `image_dataset.read(window=..., indexes=1)`:
the flat list of its uint8 pixel values. -/
def Chunk : Type := List Nat

instance : DecidableEq Chunk := by unfold Chunk; infer_instance

/-- Embedding of `values_check(array)` from `raster_utils.py` (lines 21-26): scan the flat
values and return `True` at the first truthy (non-zero) one. -/
def values_check : Chunk → Bool
  | [] => false
  | x :: xs => if x ≠ 0 then true else values_check xs

/-- Inner loop of the `stack_images` window loop
(`for n, image_dataset in enumerate(image_datasets)`): the sources are
modelled by their read functions (window ↦ chunk); `n` is the running
`enumerate` index.  Produces the list of performed writes
`(band index, write window, chunk)` in program order: a write is skipped
exactly when `values_check(chunk) is False`, otherwise the chunk is written
unchanged to band `n + 1`. -/
def bandWrites (rw ww : Window) : List (Window → Chunk) → Nat →
    List (Nat × Window × Chunk)
  | [], _ => []
  | src :: rest, n =>
      let chunk := src rw
      if values_check chunk = false then bandWrites rw ww rest (n + 1)
      else (n + 1, ww, chunk) :: bandWrites rw ww rest (n + 1)

/-- The full write sequence of the `stack_images` main loop
(`raster_utils.py` lines 96-102): `windows = zip(read_windows, write_windows)`,
then for each pair every source band is read and conditionally written. -/
def stack_writes (sources : List (Window → Chunk))
    (read_windows write_windows : List Window) : List (Nat × Window × Chunk) :=
  (List.zip read_windows write_windows).flatMap
    (fun p => bandWrites p.1 p.2 sources 0)

/-- The effect of a write sequence on the output raster, at the granularity
of (band, write window): each performed write replaces the content there. -/
def applyWrites (init : Nat → Window → Chunk)
    (ws : List (Nat × Window × Chunk)) : Nat → Window → Chunk :=
  ws.foldl (fun acc t => fun b win =>
    if b = t.1 ∧ win = t.2.1 then t.2.2 else acc b win) init

/-- The freshly created output raster of `stack_images`: `profile["nodata"]`
is 0 and the dataset is created empty, so before any write every window
reads back as all zeros. -/
def nodataInit : Nat → Window → Chunk :=
  fun _ win => List.replicate (win.width * win.height) 0

/-- Index of the last `')'` in the line: `row.rindex(")")`, `none` when the
character is absent (Python raises `ValueError` then). -/
def rfindParen : List Char → Option Nat
  | [] => none
  | c :: rest =>
      match rfindParen rest with
      | some i => some (i + 1)
      | none => if c = ')' then some 0 else none

/-- Python slice `row[a:b]` for `0 ≤ a`, `0 ≤ b` (empty when `a ≥ b`). -/
def listSlice (l : List Char) (a b : Nat) : List Char := (l.take b).drop a

/-- Python `s.split(",")`: never returns an empty list; splitting the empty
string yields `[""]`. -/
def splitComma : List Char → List (List Char)
  | [] => [[]]
  | c :: rest =>
      if c = ',' then [] :: splitComma rest
      else
        match splitComma rest with
        | t :: ts => (c :: t) :: ts
        | [] => [[c]]

/-- Embedding of `HIIOSMRasterize._parse_row` (`task.py` lines 177-185).
`row.rindex(")")` raises `ValueError` when the line has no `')'`
(embedded as `.error ()`); otherwise the geometry text is `row[0:idx]`
with `idx` one past the last `')'`, and the attribute tags are
`row[idx+1:-1].split(",")`.  An empty or missing tag list
(`not attr_tags or not attr_tags[0]`) yields `(None, None)`,
embedded as `.ok none`. -/
def _parse_row (row : List Char) :
    Except Unit (Option (List Char × List (List Char))) :=
  match rfindParen row with
  | none => .error ()
  | some i =>
      let idx := i + 1
      let attr_tags := splitComma (listSlice row (idx + 1) (row.length - 1))
      if attr_tags = [] ∨ attr_tags.head? = some [] then .ok none
      else .ok (some (row.take idx, attr_tags))

/-- Constant `HIIOSMRasterize.MAX_ROWS` (`task.py` line 91). -/
def MAX_ROWS : Nat := 1000000

/-- Local `max_rows = self.MAX_ROWS - 1` (`task.py` line 314). -/
def max_rows : Nat := MAX_ROWS - 1

/-- Association-list lookup standing for a Python dict read. -/
def lookupA {β : Type} (k : List Char) : List (List Char × β) → Option β
  | [] => none
  | (k', v) :: rest => if k = k' then some v else lookupA k rest

/-- Association-list update standing for a Python dict assignment. -/
def setA {β : Type} (k : List Char) (v : β) :
    List (List Char × β) → List (List Char × β)
  | [] => [(k, v)]
  | (k', v') :: rest =>
      if k = k' then (k, v) :: rest else (k', v') :: setA k v rest

/-- One shard CSV file created by `_create_file`: its attribute tag and the
data rows written through its handle (the `'"WKT","BURN"'` header line is
implicit).  A file's identity (its uuid-based path and its open handle) is
its position in `SplitState.files`. -/
structure ShardFile where
  tag : List Char
  rows : List (List Char)
deriving DecidableEq

/-- The mutable state of `split_osmium_text_file` (`task.py` lines 300-352):
`file_indices` and `file_handlers` are the two dicts (a handler is the index
of its file in `files`); `files` doubles as the `output_files` list since
every created file is appended to both; `roads` is the body of the road
table; `roadsOpen`/`roadsClosed` record the explicit open/close calls the
function performs on the road-table handle; `shardCloseCalls` records the
explicit `close()` calls performed on shard handles (the source contains
none). -/
structure SplitState where
  fileIndices : List (List Char × Nat)
  handlers : List (List Char × Nat)
  files : List ShardFile
  roads : List (List Char)
  roadsOpen : Bool
  roadsClosed : Bool
  shardCloseCalls : List Nat
deriving DecidableEq

/-- The string Python interpolates for the loop variable `wkt` in
`f'"{wkt}",\n'`: `str(None)` is the literal text `None`. -/
def pyStr (w : Option (List Char)) : List Char :=
  match w with
  | some s => s
  | none => "None".toList

/-- The shard row `f'"{wkt}",\n'` written at `task.py` line 338. -/
def shardLine (w : Option (List Char)) : List Char :=
  '"' :: (pyStr w ++ "\",\n".toList)

/-- The road-table row `f'"{wkt}","{rd_attr_tag[0]}","{rd_attr_tag[1]}"\n'`
written at `task.py` lines 345-347. -/
def roadLine (w : List Char) (rd : List Char × List Char) : List Char :=
  '"' :: (w ++ "\",\"".toList ++ rd.1 ++ "\",\"".toList ++ rd.2 ++ "\"\n".toList)

/-- Append a row through the handle of file `fid`. -/
def appendToFile : List ShardFile → Nat → List Char → List ShardFile
  | [], _, _ => []
  | f :: rest, 0, line => ⟨f.tag, f.rows ++ [line]⟩ :: rest
  | f :: rest, fid + 1, line => f :: appendToFile rest fid line

/-- First statement group of `for attr_tag in attribute_tags:`
(`task.py` lines 329-336): when the tag has no handler yet or its row
counter reached the cap, `_create_file` a fresh shard (appended to
`output_files`), point the tag's handler at it and reset the counter to 0. -/
def createIfNeeded (st : SplitState) (attr_tag : List Char) : SplitState :=
  if lookupA attr_tag st.handlers = none
      ∨ max_rows ≤ (lookupA attr_tag st.fileIndices).getD 0 then
    { st with
      files := st.files ++ [⟨attr_tag, []⟩],
      handlers := setA attr_tag st.files.length st.handlers,
      fileIndices := setA attr_tag 0 st.fileIndices }
  else st

/-- Second statement group (`task.py` lines 338-339): write
`f'"{wkt}",\n'` through the tag's handler and increment its counter. -/
def writeShardRow (st : SplitState) (attr_tag : List Char)
    (wkt : Option (List Char)) : SplitState :=
  { st with
    files := appendToFile st.files ((lookupA attr_tag st.handlers).getD 0)
      (shardLine wkt),
    fileIndices :=
      setA attr_tag ((lookupA attr_tag st.fileIndices).getD 0 + 1)
        st.fileIndices }

/-- Third statement group (`task.py` lines 341-347): when roads are
processed and the tag is road-mapped, rebind the loop variable
`wkt = self._clean_geometry(wkt, geod)` and append a road row unless the
cleaner returned `None`.  Returns the (possibly rebound) `wkt`. -/
def roadsStep (clean : Option (List Char) → Option (List Char))
    (roads_tags : List (List Char × (List Char × List Char)))
    (process_roads : Bool) (st : SplitState) (wkt : Option (List Char))
    (attr_tag : List Char) : SplitState × Option (List Char) :=
  if process_roads ∧ (lookupA attr_tag roads_tags).isSome then
    let rd := (lookupA attr_tag roads_tags).getD ([], [])
    let wkt := clean wkt
    match wkt with
    | some w => ({ st with roads := st.roads ++ [roadLine w rd] }, some w)
    | none => (st, none)
  else (st, wkt)

/-- Body of `for attr_tag in attribute_tags:` (`task.py` lines 328-347),
parametrised by the external geometry cleaner `clean`
(`self._clean_geometry(wkt, geod)`, which accepts and may return `None`).
Takes and returns the loop variable `wkt` because the road branch rebinds
it. -/
def processTag (clean : Option (List Char) → Option (List Char))
    (roads_tags : List (List Char × (List Char × List Char)))
    (process_roads : Bool) (st : SplitState) (wkt : Option (List Char))
    (attr_tag : List Char) : SplitState × Option (List Char) :=
  roadsStep clean roads_tags process_roads
    (writeShardRow (createIfNeeded st attr_tag) attr_tag wkt) wkt attr_tag

/-- The `for attr_tag in attribute_tags:` loop, threading the state and the
(rebindable) `wkt` loop variable. -/
def processTags (clean : Option (List Char) → Option (List Char))
    (roads_tags : List (List Char × (List Char × List Char)))
    (process_roads : Bool) :
    SplitState × Option (List Char) → List (List Char) →
    SplitState × Option (List Char)
  | p, [] => p
  | p, t :: ts =>
      processTags clean roads_tags process_roads
        (processTag clean roads_tags process_roads p.1 p.2 t) ts

/-- The `for row in fr:` loop (`task.py` lines 322-347).  A `ValueError`
escaping `_parse_row` aborts the whole call; the error carries the state at
raise time so that the fate of the open handles is observable. -/
def splitRows (clean : Option (List Char) → Option (List Char))
    (roads_tags : List (List Char × (List Char × List Char)))
    (process_roads : Bool) :
    SplitState → List (List Char) → Except SplitState SplitState
  | st, [] => .ok st
  | st, row :: rest =>
      match _parse_row row with
      | .error _ => .error st
      | .ok none => splitRows clean roads_tags process_roads st rest
      | .ok (some (wkt, attribute_tags)) =>
          splitRows clean roads_tags process_roads
            (processTags clean roads_tags process_roads
              (st, some wkt) attribute_tags).1 rest

/-- State at function entry: empty dicts and file list; when
`self.process_roads` the road-table handle is opened (and its header row
written) before the loop. -/
def initSplitState (process_roads : Bool) : SplitState :=
  ⟨[], [], [], [], process_roads, false, []⟩

/-- The statements after the loop: `roads_file.close()` when
`self.process_roads`.  No shard handle is closed. -/
def finishSplit (process_roads : Bool) (st : SplitState) : SplitState :=
  if process_roads then { st with roadsClosed := true } else st

/-- Embedding of `HIIOSMRasterize.split_osmium_text_file` (`task.py` lines 300-352) over
a stream of text lines, parametrised by the external geometry cleaner.
Returns the final state (whose `files` field is both the `output_files`
result list and the shard contents); an uncaught exception is `.error`
carrying the state at raise time. -/
def split_osmium_text_file
    (clean : Option (List Char) → Option (List Char))
    (roads_tags : List (List Char × (List Char × List Char)))
    (process_roads : Bool) (rows : List (List Char)) :
    Except SplitState SplitState :=
  match splitRows clean roads_tags process_roads
      (initSplitState process_roads) rows with
  | .error st => .error st
  | .ok st => .ok (finishSplit process_roads st)

/-- The external geometry primitives used by `_clean_geometry`
(`task.py` lines 216-240), abstracted over a geometry type `G`
(shapely geometries): `norm` is
`shp_wkt.loads(shp_wkt.dumps(shp_wkt.loads(wkt), rounding_precision=5)).simplify(0)`,
`bufferDump` is `shp_wkt.dumps(geom.buffer(0))`, `dump` is
`shp_wkt.dumps(geom, rounding_precision=5)`, `geodArea0` is
`geod.geometry_area_perimeter(geom)[0]`, and `hasPolygon` is
`"POLYGON" in wkt`. -/
structure GeomOps (G : Type) where
  norm : List Char → G
  isValid : G → Bool
  isEmpty : G → Bool
  bufferDump : G → List Char
  dump : G → List Char
  geodArea0 : G → Int
  hasPolygon : List Char → Bool

/-- Constant `HIIOSMRasterize.MIN_GEOM_AREA` (`task.py` line 89). -/
def MIN_GEOM_AREA : Int := 5

/-- Embedding of `HIIOSMRasterize._clean_geometry(wkt, geod, fail_fast)`
(`task.py` lines 216-240).  Python's recursion is unbounded a priori, so the
embedding carries a fuel (remaining stack depth): the outer value is `none`
only when the fuel runs out, and `some r` is Python's return value `r`
(`r = none` being Python's `None`).  A falsy `wkt` (`None` or the empty
string) and a `wkt` without `"POLYGON"` are returned unchanged; an invalid
normalised geometry triggers the single `buffer(0)` retry with
`fail_fast=True` unless `fail_fast` is already set. -/
def _clean_geometry {G : Type} (ops : GeomOps G) :
    Nat → Option (List Char) → Bool → Option (Option (List Char))
  | 0, _, _ => none
  | _ + 1, none, _ => some none
  | fuel + 1, some w, fail_fast =>
      if w = [] ∨ ops.hasPolygon w = false then some (some w)
      else
        let geom := ops.norm w
        if ops.isValid geom = false then
          if fail_fast = true then some none
          else _clean_geometry ops fuel (some (ops.bufferDump geom)) true
        else if ops.isEmpty geom = true then some none
        else if |ops.geodArea0 geom| < MIN_GEOM_AREA then some none
        else some (some (ops.dump geom))

/-- Concrete constants used by the closed-form evaluations below: a
well-formed input line `W) a=b` (geometry text `W)`, single tag `a=b`). -/
def tagAB : List Char := "a=b".toList

/-- The geometry text parsed from `rowAB`. -/
def wktAB : List Char := "W)".toList

/-- A well-formed single-tag input line. -/
def rowAB : List Char := "W) a=b\n".toList

/-- A well-formed input line carrying the two tags `a=b` and `c=d`. -/
def rowCD : List Char := "W) a=b,c=d\n".toList

/-- A malformed input line containing no `')'`. -/
def rowNoParen : List Char := "abc,a=b\n".toList

/-- A geometry cleaner that rejects every geometry (models a record whose
geometry is invalid after the single repair attempt, empty, or below the
minimum area, so that `_clean_geometry` returns `None`). -/
def cleanNone : Option (List Char) → Option (List Char) := fun _ => none

/-- A road mapping containing the tag `a=b`. -/
def roadsAB : List (List Char × (List Char × List Char)) :=
  [(tagAB, ("highway".toList, "road".toList))]

/-- The sharder state after writing `r` rows tagged `a=b` into the first
(and only) shard of the run on identical `rowAB` lines. -/
def stateAB0 (r : Nat) : SplitState :=
  ⟨[(tagAB, r)], [(tagAB, 0)],
    [⟨tagAB, List.replicate r (shardLine (some wktAB))⟩], [], true, false, []⟩

/-- The sharder state after the shard for `a=b` rotated once: the first
shard holds `max_rows` rows and the fresh shard holds `r`. -/
def stateAB1 (r : Nat) : SplitState :=
  ⟨[(tagAB, r)], [(tagAB, 1)],
    [⟨tagAB, List.replicate max_rows (shardLine (some wktAB))⟩,
      ⟨tagAB, List.replicate r (shardLine (some wktAB))⟩], [], true, false, []⟩

/-- One loop iteration of the single-tag run: process one `rowAB` line
(clean function and road mapping irrelevant: the tag is not road-mapped). -/
def stepAB (st : SplitState) : SplitState :=
  (processTags cleanNone [] true (st, some wktAB) [tagAB]).1

/-- Concrete geometry primitives for the cleaner evaluations: every
geometry is its own WKT, `"A"` is invalid but its `buffer(0)` repair
`"B"` is valid, non-empty and large enough. -/
def opsRepair : GeomOps (List Char) :=
  ⟨id, fun g => g = "B".toList, fun _ => false, fun _ => "B".toList, id,
    fun _ => 9, fun _ => true⟩

/-- Concrete geometry primitives where every geometry is invalid, including
after the `buffer(0)` repair. -/
def opsBroken : GeomOps (List Char) :=
  ⟨id, fun _ => false, fun _ => false, fun _ => "B".toList, id,
    fun _ => 9, fun _ => true⟩

/-- Projection used to state closed-form facts about a sharder run. -/
def okState (e : Except SplitState SplitState) : SplitState :=
  match e with
  | .ok st => st
  | .error st => st

/-- Projection used to state closed-form facts about a split plan. -/
def okStrips (e : Except Unit (List StripMeta)) : List StripMeta :=
  match e with
  | .ok l => l
  | .error _ => []

/-- The column intervals `[col_off, col_off + width)` of the two windows
are disjoint. -/
def colDisjoint (a b : Window) : Prop :=
  a.col_off + a.width ≤ b.col_off ∨ b.col_off + b.width ≤ a.col_off

/-- The row intervals `[row_off, row_off + height)` of the two windows
are disjoint. -/
def rowDisjoint (a b : Window) : Prop :=
  a.row_off + a.height ≤ b.row_off ∨ b.row_off + b.height ≤ a.row_off

/-- Two windows do not overlap: their pixel rectangles are disjoint. -/
def windowsDisjoint (a b : Window) : Prop :=
  colDisjoint a b ∨ rowDisjoint a b

/-- Shift a window's coordinates by an offset (what `get_windows` does with
its `offset` parameter). -/
def shiftWindow (dx dy : Nat) (win : Window) : Window :=
  ⟨win.col_off + dx, win.row_off + dy, win.width, win.height⟩

/-- A source raster that reads all-zero everywhere. -/
def srcZero : Window → Chunk := fun _ => [0, 0]

/-- A source raster with a non-zero value. -/
def srcOne : Window → Chunk := fun _ => [3]

/-- A concrete 1×1 window. -/
def winU : Window := ⟨0, 0, 1, 1⟩

/-! ### Arithmetic of `ceilDiv` and the clipping rule -/

theorem ceilDiv_zero_left {s : Nat} (hs : 1 ≤ s) : ceilDiv 0 s = 0 := by
  unfold ceilDiv
  exact Nat.div_eq_of_lt (by omega)

theorem ceilDiv_of_le {w s : Nat} (h1 : 1 ≤ w) (h2 : w ≤ s) : ceilDiv w s = 1 := by
  unfold ceilDiv
  exact Nat.div_eq_of_lt_le (by omega) (by omega)

theorem ceilDiv_of_lt {w s : Nat} (hs : 1 ≤ s) (h : s < w) :
    ceilDiv w s = ceilDiv (w - s) s + 1 := by
  unfold ceilDiv
  have h1 : w + s - 1 = (w - s + s - 1) + s := by omega
  rw [h1, Nat.add_div_right _ hs]

theorem mul_lt_of_lt_ceilDiv {w s j : Nat} (hs : 1 ≤ s) (h : j < ceilDiv w s) :
    j * s < w := by
  unfold ceilDiv at h
  have h2 : (j + 1) * s ≤ w + s - 1 := (Nat.le_div_iff_mul_le hs).mp h
  rw [Nat.succ_mul] at h2
  omega

theorem clip_size_eq_min {dim size off : Nat} (h : off < dim) :
    clip_size dim size off = min size (dim - off) := by
  unfold clip_size
  split_ifs <;> omega

/-! ### Characterisation of `get_windows` as a row-major window grid -/

theorem get_windows_inner_eq (width height size : Nat) (off : Nat × Nat)
    (oy : Nat) : ∀ n ox,
    get_windows_inner width height size off oy n ox =
      (List.range n).map (fun j =>
        ⟨ox + j * size + off.1, oy + off.2,
          clip_size width size (ox + j * size), clip_size height size oy⟩) := by
  intro n
  induction n with
  | zero => intro ox; rfl
  | succ n ih =>
      intro ox
      rw [get_windows_inner, List.range_succ_eq_map, List.map_cons,
        List.map_map, ih (ox + size)]
      congr 1
      · simp
      · apply List.map_congr_left
        intro j _
        have e : ox + size + j * size = ox + Nat.succ j * size := by
          rw [Nat.succ_mul]; omega
        simp [Function.comp, e]

theorem get_windows_rows_eq (width height size : Nat) (off : Nat × Nat)
    (num_w : Nat) : ∀ n oy,
    get_windows_rows width height size off num_w n oy =
      ((List.range n).map (fun i =>
        (List.range num_w).map (fun j =>
          ⟨j * size + off.1, oy + i * size + off.2,
            clip_size width size (j * size),
            clip_size height size (oy + i * size)⟩))).flatten := by
  intro n
  induction n with
  | zero => intro oy; rfl
  | succ n ih =>
      intro oy
      rw [get_windows_rows, List.range_succ_eq_map, List.map_cons,
        List.map_map, List.flatten_cons, ih (oy + size),
        get_windows_inner_eq]
      congr 1
      · apply List.map_congr_left
        intro j _
        simp
      · congr 1
        apply List.map_congr_left
        intro i _
        apply List.map_congr_left
        intro j _
        have e : oy + size + i * size = oy + Nat.succ i * size := by
          rw [Nat.succ_mul]; omega
        simp [Function.comp, e]

theorem flatten_map_range {α : Type} (f : Nat → Nat → α) :
    ∀ n m : Nat,
    ((List.range n).map (fun i => (List.range m).map (f i))).flatten =
      (List.range (n * m)).map (fun k => f (k / m) (k % m)) := by
  intro n m
  rcases Nat.eq_zero_or_pos m with hm | hm
  · subst hm
    induction n with
    | zero => rfl
    | succ n ih => rw [List.range_succ, List.map_append, List.flatten_append, ih]; simp
  · induction n with
    | zero => simp
    | succ n ih =>
        rw [List.range_succ, List.map_append, List.flatten_append, ih]
        have e : (n + 1) * m = n * m + m := by ring
        rw [e, List.range_add, List.map_append, List.map_map]
        simp only [List.map_cons, List.map_nil, List.flatten_cons,
          List.flatten_nil, List.append_nil]
        congr 1
        apply List.map_congr_left
        intro j hj
        rw [List.mem_range] at hj
        have ed : (n * m + j) / m = n := by
          rw [Nat.add_comm, Nat.add_mul_div_right _ _ hm, Nat.div_eq_of_lt hj,
            Nat.zero_add]
        have em : (n * m + j) % m = j := by
          rw [Nat.add_comm, Nat.add_mul_mod_self_right, Nat.mod_eq_of_lt hj]
        simp [Function.comp, ed, em]

theorem get_windows_eq_map (w h s : Nat) (off : Nat × Nat) :
    get_windows w h s off =
      (List.range (ceilDiv h s * ceilDiv w s)).map (fun k =>
        ⟨(k % ceilDiv w s) * s + off.1, (k / ceilDiv w s) * s + off.2,
          clip_size w s ((k % ceilDiv w s) * s),
          clip_size h s ((k / ceilDiv w s) * s)⟩) := by
  unfold get_windows
  rw [get_windows_rows_eq]
  have e := flatten_map_range (fun i j =>
    (⟨j * s + off.1, i * s + off.2, clip_size w s (j * s),
      clip_size h s (i * s)⟩ : Window)) (ceilDiv h s) (ceilDiv w s)
  simp only [Nat.zero_add] at e ⊢
  exact e

theorem sum_min_strip {s : Nat} (hs : 1 ≤ s) :
    ∀ w, ((List.range (ceilDiv w s)).map (fun j => min s (w - j * s))).sum = w := by
  intro w
  induction w using Nat.strong_induction_on with
  | _ w ih =>
    rcases Nat.eq_zero_or_pos w with hw | hw
    · subst hw
      rw [ceilDiv_zero_left hs]
      rfl
    · rcases le_or_lt w s with hws | hws
      · rw [ceilDiv_of_le hw hws]
        show min s (w - 0 * s) + 0 = w
        omega
      · rw [ceilDiv_of_lt hs hws, List.range_succ_eq_map, List.map_cons,
          List.map_map, List.sum_cons]
        have e1 : List.map ((fun j => min s (w - j * s)) ∘ Nat.succ)
            (List.range (ceilDiv (w - s) s)) =
            List.map (fun j => min s (w - s - j * s))
            (List.range (ceilDiv (w - s) s)) := by
          apply List.map_congr_left
          intro j _
          have e : Nat.succ j * s = j * s + s := Nat.succ_mul j s
          simp only [Function.comp]
          rw [e]
          congr 1
          omega
        rw [e1, ih (w - s) (by omega)]
        omega

theorem get_windows_length (w h s : Nat) (off : Nat × Nat) :
    (get_windows w h s off).length = ceilDiv h s * ceilDiv w s := by
  rw [get_windows_eq_map]
  simp

theorem get_windows_area_sum (w h s : Nat) (hs : 1 ≤ s) (off : Nat × Nat) :
    ((get_windows w h s off).map (fun win => win.width * win.height)).sum
      = w * h := by
  unfold get_windows
  rw [get_windows_rows_eq, List.map_flatten, List.sum_flatten,
    List.map_map, List.map_map]
  have erow : ∀ i ∈ List.range (ceilDiv h s),
      ((List.sum ∘ List.map fun win => win.width * win.height) ∘ fun i =>
        List.map (fun j =>
          (⟨j * s + off.1, 0 + i * s + off.2, clip_size w s (j * s),
            clip_size h s (0 + i * s)⟩ : Window)) (List.range (ceilDiv w s))) i
      = w * min s (h - i * s) := by
    intro i hi
    rw [List.mem_range] at hi
    simp only [Function.comp, List.map_map]
    have ein : ∀ j ∈ List.range (ceilDiv w s),
        ((fun win => win.width * win.height) ∘ fun j =>
          (⟨j * s + off.1, 0 + i * s + off.2, clip_size w s (j * s),
            clip_size h s (0 + i * s)⟩ : Window)) j
        = min s (w - j * s) * clip_size h s (0 + i * s) := by
      intro j hj
      rw [List.mem_range] at hj
      simp only [Function.comp]
      rw [clip_size_eq_min (mul_lt_of_lt_ceilDiv hs hj)]
    rw [List.map_congr_left ein, List.sum_map_mul_right, sum_min_strip hs,
      Nat.zero_add, clip_size_eq_min (mul_lt_of_lt_ceilDiv hs hi),
      Nat.mul_comm]
  rw [List.map_congr_left erow, List.sum_map_mul_left, sum_min_strip hs]

theorem get_windows_get (w h s : Nat) (hs : 1 ≤ s) (off : Nat × Nat)
    (k : Nat) (hk : k < (get_windows w h s off).length) :
    (get_windows w h s off).get ⟨k, hk⟩ =
      ⟨(k % ceilDiv w s) * s + off.1, (k / ceilDiv w s) * s + off.2,
        min s (w - (k % ceilDiv w s) * s),
        min s (h - (k / ceilDiv w s) * s)⟩ := by
  have hk' := hk
  rw [get_windows_length] at hk'
  have hnw : 0 < ceilDiv w s := by
    rcases Nat.eq_zero_or_pos (ceilDiv w s) with h0 | h0
    · rw [h0, Nat.mul_zero] at hk'; omega
    · exact h0
  have hj : k % ceilDiv w s < ceilDiv w s := Nat.mod_lt _ hnw
  have hi : k / ceilDiv w s < ceilDiv h s :=
    (Nat.div_lt_iff_lt_mul hnw).mpr hk'
  simp only [List.get_eq_getElem]
  simp only [get_windows_eq_map, List.getElem_map, List.getElem_range]
  rw [clip_size_eq_min (mul_lt_of_lt_ceilDiv hs hj),
    clip_size_eq_min (mul_lt_of_lt_ceilDiv hs hi)]

theorem windowsDisjoint_of_grid {w h s : Nat} (hs : 1 ≤ s)
    {i1 j1 i2 j2 dx dy : Nat} (hj1 : j1 * s < w) (hi1 : i1 * s < h)
    (hj2 : j2 * s < w) (hi2 : i2 * s < h) (hne : j1 ≠ j2 ∨ i1 ≠ i2) :
    windowsDisjoint
      ⟨j1 * s + dx, i1 * s + dy, min s (w - j1 * s), min s (h - i1 * s)⟩
      ⟨j2 * s + dx, i2 * s + dy, min s (w - j2 * s), min s (h - i2 * s)⟩ := by
  have key : ∀ a b : Nat, a < b → a * s + min s (w - a * s) ≤ b * s := by
    intro a b hab
    have h1 : (a + 1) * s ≤ b * s := Nat.mul_le_mul_right s hab
    rw [Nat.succ_mul] at h1
    omega
  have keyh : ∀ a b : Nat, a < b → a * s + min s (h - a * s) ≤ b * s := by
    intro a b hab
    have h1 : (a + 1) * s ≤ b * s := Nat.mul_le_mul_right s hab
    rw [Nat.succ_mul] at h1
    omega
  rcases hne with hj | hi
  · left
    unfold colDisjoint
    dsimp only
    rcases Nat.lt_or_ge j1 j2 with hlt | hge
    · left; have := key j1 j2 hlt; omega
    · right
      have hlt : j2 < j1 := by omega
      have := key j2 j1 hlt; omega
  · right
    unfold rowDisjoint
    dsimp only
    rcases Nat.lt_or_ge i1 i2 with hlt | hge
    · left; have := keyh i1 i2 hlt; omega
    · right
      have hlt : i2 < i1 := by omega
      have := keyh i2 i1 hlt; omega

/-- Claim C6: for every `width ≥ 0`, `height ≥ 0` and `tileSize ≥ 1`,
`get_windows` yields exactly `ceil(height/tileSize) × ceil(width/tileSize)`
windows in row-major order (window `k` sits at grid column `k % num_w` and
grid row `k / num_w`); their areas sum exactly to `width × height`; no two
windows overlap; and before the offset is added every window lies within
`[0, width) × [0, height)`, last-row/last-column windows being clipped to
the remaining pixels. -/
theorem get_windows_spec (w h s dx dy : Nat) (hs : 1 ≤ s) :
    (get_windows w h s (dx, dy)).length = ceilDiv h s * ceilDiv w s ∧
    ((get_windows w h s (dx, dy)).map (fun win => win.width * win.height)).sum
      = w * h ∧
    (∀ k1 k2 (hk1 : k1 < (get_windows w h s (dx, dy)).length)
        (hk2 : k2 < (get_windows w h s (dx, dy)).length), k1 ≠ k2 →
        windowsDisjoint ((get_windows w h s (dx, dy)).get ⟨k1, hk1⟩)
          ((get_windows w h s (dx, dy)).get ⟨k2, hk2⟩)) ∧
    (∀ k (hk : k < (get_windows w h s (dx, dy)).length),
        (get_windows w h s (dx, dy)).get ⟨k, hk⟩ =
          ⟨(k % ceilDiv w s) * s + dx, (k / ceilDiv w s) * s + dy,
            min s (w - (k % ceilDiv w s) * s),
            min s (h - (k / ceilDiv w s) * s)⟩) ∧
    (∀ win ∈ get_windows w h s (dx, dy),
        dx ≤ win.col_off ∧ win.col_off + win.width ≤ dx + w ∧
        dy ≤ win.row_off ∧ win.row_off + win.height ≤ dy + h) := by
  have hmem : ∀ win ∈ get_windows w h s (dx, dy), ∃ i j : Nat,
      j * s < w ∧ i * s < h ∧
      win = ⟨j * s + dx, i * s + dy, min s (w - j * s), min s (h - i * s)⟩ := by
    intro win hwin
    rw [get_windows_eq_map] at hwin
    rcases List.mem_map.mp hwin with ⟨k, hk, hwk⟩
    rw [List.mem_range] at hk
    have hnw : 0 < ceilDiv w s := by
      rcases Nat.eq_zero_or_pos (ceilDiv w s) with h0 | h0
      · rw [h0, Nat.mul_zero] at hk; omega
      · exact h0
    have hj : k % ceilDiv w s < ceilDiv w s := Nat.mod_lt _ hnw
    have hi : k / ceilDiv w s < ceilDiv h s :=
      (Nat.div_lt_iff_lt_mul hnw).mpr hk
    refine ⟨k / ceilDiv w s, k % ceilDiv w s,
      mul_lt_of_lt_ceilDiv hs hj, mul_lt_of_lt_ceilDiv hs hi, ?_⟩
    rw [← hwk, clip_size_eq_min (mul_lt_of_lt_ceilDiv hs hj),
      clip_size_eq_min (mul_lt_of_lt_ceilDiv hs hi)]
  refine ⟨get_windows_length w h s (dx, dy),
    get_windows_area_sum w h s hs (dx, dy), ?_, ?_, ?_⟩
  · intro k1 k2 hk1 hk2 hne
    have e1 := get_windows_get w h s hs (dx, dy) k1 hk1
    have e2 := get_windows_get w h s hs (dx, dy) k2 hk2
    rw [e1, e2]
    have hk1' := hk1
    rw [get_windows_length] at hk1'
    have hnw : 0 < ceilDiv w s := by
      rcases Nat.eq_zero_or_pos (ceilDiv w s) with h0 | h0
      · rw [h0, Nat.mul_zero] at hk1'; omega
      · exact h0
    have hk2' := hk2
    rw [get_windows_length] at hk2'
    have hj1 : k1 % ceilDiv w s < ceilDiv w s := Nat.mod_lt _ hnw
    have hj2 : k2 % ceilDiv w s < ceilDiv w s := Nat.mod_lt _ hnw
    have hi1 : k1 / ceilDiv w s < ceilDiv h s :=
      (Nat.div_lt_iff_lt_mul hnw).mpr hk1'
    have hi2 : k2 / ceilDiv w s < ceilDiv h s :=
      (Nat.div_lt_iff_lt_mul hnw).mpr hk2'
    apply windowsDisjoint_of_grid hs (mul_lt_of_lt_ceilDiv hs hj1)
      (mul_lt_of_lt_ceilDiv hs hi1) (mul_lt_of_lt_ceilDiv hs hj2)
      (mul_lt_of_lt_ceilDiv hs hi2)
    by_contra hcon
    push_neg at hcon
    apply hne
    have ed1 := Nat.div_add_mod k1 (ceilDiv w s)
    have ed2 := Nat.div_add_mod k2 (ceilDiv w s)
    rw [← ed1, ← ed2, hcon.1, hcon.2]
  · intro k hk
    exact get_windows_get w h s hs (dx, dy) k hk
  · intro win hwin
    rcases hmem win hwin with ⟨i, j, hj, hi, hwe⟩
    subst hwe
    dsimp only
    refine ⟨by omega, by omega, by omega, by omega⟩

/-- Concrete instantiation of `get_windows_spec`: window count of a 5×3
grid with tile size 2 and offset (1, 1). -/
theorem get_windows_spec_witness :
    (get_windows 5 3 2 (1, 1)).length = ceilDiv 3 2 * ceilDiv 5 2 :=
  (get_windows_spec 5 3 2 1 1 (by norm_num)).1

/-- Claim C10: for tileSize ≥ 1 every window emitted by `get_windows` has
its pre-offset origin strictly inside the grid, so the defensive fallback
branch of the clipping rule (origin beyond the dimension ⇒ size set to the
full dimension) is never executed — every emitted size is the clipped
`min size (remaining)`; in particular a zero width or height yields the
empty window sequence. -/
theorem get_windows_no_fallback (w h s dx dy : Nat) (hs : 1 ≤ s) :
    (∀ win ∈ get_windows w h s (dx, dy), ∃ i j : Nat,
        j * s < w ∧ i * s < h ∧
        win = ⟨j * s + dx, i * s + dy, min s (w - j * s), min s (h - i * s)⟩) ∧
    (w = 0 → get_windows w h s (dx, dy) = []) ∧
    (h = 0 → get_windows w h s (dx, dy) = []) := by
  refine ⟨?_, ?_, ?_⟩
  · intro win hwin
    rw [get_windows_eq_map] at hwin
    rcases List.mem_map.mp hwin with ⟨k, hk, hwk⟩
    rw [List.mem_range] at hk
    have hnw : 0 < ceilDiv w s := by
      rcases Nat.eq_zero_or_pos (ceilDiv w s) with h0 | h0
      · rw [h0, Nat.mul_zero] at hk; omega
      · exact h0
    have hj : k % ceilDiv w s < ceilDiv w s := Nat.mod_lt _ hnw
    have hi : k / ceilDiv w s < ceilDiv h s :=
      (Nat.div_lt_iff_lt_mul hnw).mpr hk
    refine ⟨k / ceilDiv w s, k % ceilDiv w s,
      mul_lt_of_lt_ceilDiv hs hj, mul_lt_of_lt_ceilDiv hs hi, ?_⟩
    rw [← hwk, clip_size_eq_min (mul_lt_of_lt_ceilDiv hs hj),
      clip_size_eq_min (mul_lt_of_lt_ceilDiv hs hi)]
  · intro hw
    rw [get_windows_eq_map]
    subst hw
    rw [ceilDiv_zero_left hs, Nat.mul_zero]
    rfl
  · intro hh
    rw [get_windows_eq_map]
    subst hh
    rw [ceilDiv_zero_left hs, Nat.zero_mul]
    rfl

/-- Concrete instantiation of `get_windows_no_fallback`: a zero-width grid
yields no windows. -/
theorem get_windows_no_fallback_witness : get_windows 0 3 2 (0, 0) = [] :=
  (get_windows_no_fallback 0 3 2 0 0 (by norm_num)).2.1 rfl

/-- Claim C7: the `offset` parameter of `get_windows` shifts only the
resulting coordinates — the window sequence at offset `(dx, dy)` is the
zero-offset sequence with `dx`/`dy` added to each window's coordinates —
and consequently every strip plan produced by `split_image` has its
read-window sequence equal to its write-window sequence shifted by the
strip's starting column `x_read_offset`. -/
theorem get_windows_offset_shift_spec :
    (∀ w h s dx dy : Nat, get_windows w h s (dx, dy) =
        (get_windows w h s (0, 0)).map (shiftWindow dx dy)) ∧
    (∀ w h k ws : Nat, ∀ metas : List StripMeta,
        split_image w h k ws = .ok metas → ∀ m ∈ metas,
          m.read_windows = m.write_windows.map (shiftWindow m.x_read_offset 0)) := by
  have part1 : ∀ w h s dx dy : Nat, get_windows w h s (dx, dy) =
      (get_windows w h s (0, 0)).map (shiftWindow dx dy) := by
    intro w h s dx dy
    rw [get_windows_eq_map, get_windows_eq_map, List.map_map]
    apply List.map_congr_left
    intro k _
    simp [shiftWindow, Function.comp]
  refine ⟨part1, ?_⟩
  intro w h k ws metas hok m hm
  unfold split_image at hok
  by_cases hk0 : k < 1
  · rw [if_pos hk0] at hok
    exact absurd hok (by simp)
  · rw [if_neg hk0] at hok
    by_cases hk1 : k = 1
    · rw [if_pos hk1] at hok
      have hmetas : metas =
          [⟨0, (w : Int), [⟨0, 0, w, h⟩], [⟨0, 0, w, h⟩]⟩] := by
        cases hok
        rfl
      subst hmetas
      rcases List.mem_singleton.mp hm with rfl
      simp [shiftWindow]
    · rw [if_neg hk1] at hok
      have hmetas : metas = (List.range k).map (fun n =>
          let split_img_width := ceilDiv w k
          let x_read_offset := split_img_width * n
          let new_image_width : Int :=
            if split_img_width * n > w then
              (w : Int) - (split_img_width : Int) * ((n : Int) - 1)
            else (split_img_width : Int)
          ⟨x_read_offset, new_image_width,
            get_windows new_image_width.toNat h ws (x_read_offset, 0),
            get_windows new_image_width.toNat h ws (0, 0)⟩) := by
        cases hok
        rfl
      subst hmetas
      rcases List.mem_map.mp hm with ⟨n, _, hmn⟩
      rw [← hmn]
      exact part1 _ h ws _ 0

/-- Concrete instantiation of `get_windows_offset_shift_spec`: the shift
law at width 5, height 5, tile size 2, offset (3, 4), and the read/write
relation for the second strip of `split_image` on a 4×3 raster split in 2
with tile size 2. -/
theorem get_windows_offset_shift_witness :
    (get_windows 5 5 2 (3, 4) =
      (get_windows 5 5 2 (0, 0)).map (shiftWindow 3 4)) ∧
    ((⟨2, 2, [⟨2, 0, 2, 2⟩, ⟨2, 2, 2, 1⟩],
        [⟨0, 0, 2, 2⟩, ⟨0, 2, 2, 1⟩]⟩ : StripMeta).read_windows =
      (⟨2, 2, [⟨2, 0, 2, 2⟩, ⟨2, 2, 2, 1⟩],
        [⟨0, 0, 2, 2⟩, ⟨0, 2, 2, 1⟩]⟩ : StripMeta).write_windows.map
        (shiftWindow (⟨2, 2, [⟨2, 0, 2, 2⟩, ⟨2, 2, 2, 1⟩],
          [⟨0, 0, 2, 2⟩, ⟨0, 2, 2, 1⟩]⟩ : StripMeta).x_read_offset 0)) :=
  ⟨get_windows_offset_shift_spec.1 5 5 2 3 4,
    get_windows_offset_shift_spec.2 4 3 2 2
      [⟨0, 2, [⟨0, 0, 2, 2⟩, ⟨0, 2, 2, 1⟩], [⟨0, 0, 2, 2⟩, ⟨0, 2, 2, 1⟩]⟩,
        ⟨2, 2, [⟨2, 0, 2, 2⟩, ⟨2, 2, 2, 1⟩], [⟨0, 0, 2, 2⟩, ⟨0, 2, 2, 1⟩]⟩]
      (by rfl)
      ⟨2, 2, [⟨2, 0, 2, 2⟩, ⟨2, 2, 2, 1⟩], [⟨0, 0, 2, 2⟩, ⟨0, 2, 2, 1⟩]⟩
      (by simp)⟩

/-- Claim C4 evaluated at the failing input: splitting a raster of width 10
into 3 strips yields strip widths `[4, 4, 4]` — the widths sum to 12, not to
the source width 10, and the final strip has width 4, not
`10 − 4 × 2 = 2` — because the source shrinks a strip only when the strip's
*start* `split_img_width * n` exceeds the width, never when its *end* does.
The strip count itself is as claimed (3 strips, one per split). -/
theorem split_image_width_bug :
    (okStrips (split_image 10 7 3 256)).map StripMeta.strip_width
      = [4, 4, 4] ∧
    ((okStrips (split_image 10 7 3 256)).map StripMeta.strip_width).sum
      = 12 ∧
    ((12 : Int) = 10 → False) ∧
    (okStrips (split_image 10 7 3 256)).length = 3 ∧
    ((4 : Int) = 10 - 4 * 2 → False) := by
  refine ⟨by rfl, by rfl, by omega, by rfl, by omega⟩

/-! ### The compositing loop of `stack_images` -/

theorem mem_bandWrites (rw ww : Window) :
    ∀ (l : List (Window → Chunk)) (k b : Nat) (w : Window) (c : Chunk),
    (b, w, c) ∈ bandWrites rw ww l k ↔
      ∃ i src, l[i]? = some src ∧ b = k + i + 1 ∧ w = ww ∧ c = src rw ∧
        values_check (src rw) = true := by
  intro l
  induction l with
  | nil =>
      intro k b w c
      simp [bandWrites]
  | cons src rest ih =>
      intro k b w c
      rw [bandWrites]
      by_cases hv : values_check (src rw) = false
      · rw [if_pos hv, ih]
        constructor
        · rintro ⟨i, s, hs, hb, hw, hc, hvc⟩
          exact ⟨i + 1, s, by simpa using hs, by omega, hw, hc, hvc⟩
        · rintro ⟨i, s, hs, hb, hw, hc, hvc⟩
          cases i with
          | zero =>
              simp only [List.getElem?_cons_zero, Option.some.injEq] at hs
              subst hs
              rw [hvc] at hv
              exact absurd hv (by simp)
          | succ i =>
              refine ⟨i, s, by simpa using hs, by omega, hw, hc, hvc⟩
      · have hvt : values_check (src rw) = true := by
          cases hvc2 : values_check (src rw) with
          | false => exact absurd hvc2 hv
          | true => rfl
        rw [if_neg hv, List.mem_cons, ih]
        constructor
        · rintro (he | ⟨i, s, hs, hb, hw, hc, hvc⟩)
          · rw [Prod.ext_iff, Prod.ext_iff] at he
            exact ⟨0, src, by simp, by omega, he.2.1, he.2.2, hvt⟩
          · exact ⟨i + 1, s, by simpa using hs, by omega, hw, hc, hvc⟩
        · rintro ⟨i, s, hs, hb, hw, hc, hvc⟩
          cases i with
          | zero =>
              simp only [List.getElem?_cons_zero, Option.some.injEq] at hs
              subst hs
              left
              subst hw
              subst hc
              have hb' : b = k + 1 := by omega
              rw [hb']
          | succ i =>
              right
              exact ⟨i, s, by simpa using hs, by omega, hw, hc, hvc⟩

theorem applyWrites_of_not_mem :
    ∀ (ws : List (Nat × Window × Chunk)) (init : Nat → Window → Chunk)
      (b : Nat) (w : Window), (∀ c, (b, w, c) ∉ ws) →
      applyWrites init ws b w = init b w := by
  intro ws
  induction ws with
  | nil => intro init b w _; rfl
  | cons t rest ih =>
      intro init b w hnm
      have hstep : applyWrites init (t :: rest) =
          applyWrites (fun b2 win =>
            if b2 = t.1 ∧ win = t.2.1 then t.2.2 else init b2 win) rest := rfl
      rw [hstep, ih _ b w (fun c hc => hnm c (List.mem_cons_of_mem _ hc))]
      have hne : ¬(b = t.1 ∧ w = t.2.1) := by
        rintro ⟨hb, hw⟩
        exact hnm t.2.2 (by rw [List.mem_cons]; left; rw [hb, hw])
      rw [if_neg hne]

/-- Claim C8: in the `stack_images` main loop (two or more sources), for
every (readWindow, writeWindow) pair of the plan and every source at
0-based enumeration index `n`: if the chunk read from that source at the
read window is all zeros, no write is performed for band `n + 1` at the
write window by that pair, and a (band, window) slot that no pair writes
keeps the output's pre-existing nodata content (all zeros); otherwise the
chunk is written unchanged into output band `n + 1` at the write window. -/
theorem stack_images_skip_spec (sources : List (Window → Chunk))
    (rws wws : List Window) (h2 : 2 ≤ sources.length)
    (rw ww : Window) (hp : (rw, ww) ∈ List.zip rws wws)
    (n : Nat) (src : Window → Chunk) (hs : sources[n]? = some src) :
    (values_check (src rw) = false →
      ∀ c, (n + 1, ww, c) ∉ bandWrites rw ww sources 0) ∧
    (values_check (src rw) = true →
      (n + 1, ww, src rw) ∈ bandWrites rw ww sources 0) ∧
    (∀ b w, (∀ c, (b, w, c) ∉ stack_writes sources rws wws) →
      applyWrites nodataInit (stack_writes sources rws wws) b w
        = List.replicate (w.width * w.height) 0) := by
  refine ⟨?_, ?_, ?_⟩
  · intro hv c hmem
    rcases (mem_bandWrites rw ww sources 0 (n + 1) ww c).mp hmem with
      ⟨i, s, hsi, hb, _, _, hvc⟩
    have hin : i = n := by omega
    subst hin
    rw [hsi] at hs
    cases hs
    rw [hvc] at hv
    exact absurd hv (by simp)
  · intro hv
    exact (mem_bandWrites rw ww sources 0 (n + 1) ww (src rw)).mpr
      ⟨n, src, hs, by omega, rfl, rfl, hv⟩
  · intro b w hnm
    rw [applyWrites_of_not_mem _ _ _ _ hnm]
    rfl

/-- Concrete instantiation of `stack_images_skip_spec`: with an all-zero
first source and a non-zero second source over a single window pair, band 1
receives no write from that pair while band 2 receives the chunk
unchanged. -/
theorem stack_images_skip_witness :
    (values_check (srcZero winU) = false →
      ∀ c, (0 + 1, winU, c) ∉ bandWrites winU winU [srcZero, srcOne] 0) ∧
    (values_check (srcOne winU) = true →
      (1 + 1, winU, srcOne winU) ∈ bandWrites winU winU [srcZero, srcOne] 0) :=
  ⟨(stack_images_skip_spec [srcZero, srcOne] [winU] [winU] (by decide)
      winU winU (by simp) 0 srcZero rfl).1,
    (stack_images_skip_spec [srcZero, srcOne] [winU] [winU] (by decide)
      winU winU (by simp) 1 srcOne rfl).2.1⟩

/-! ### The single-retry bound of `_clean_geometry` -/

theorem clean_geometry_fuel_true {G : Type} (ops : GeomOps G) :
    ∀ (fuel : Nat) (wkt : Option (List Char)), 1 ≤ fuel →
    _clean_geometry ops fuel wkt true = _clean_geometry ops 1 wkt true := by
  intro fuel wkt hf
  match fuel, hf with
  | 1, _ => rfl
  | f + 2, _ =>
      cases wkt with
      | none => rfl
      | some w =>
          rw [_clean_geometry, _clean_geometry]
          simp

/-- Claim C9: `_clean_geometry` attempts the `buffer(0)` repair at most
once — its recursion depth is bounded at two (any stack budget of at least
2 yields the budget-2 result, and budget 2 always suffices to terminate);
a polygonal geometry invalid after normalisation but valid, non-empty and
large enough after the single repair is accepted (the repaired geometry's
re-serialisation is returned), while a geometry still invalid after that
single repair is rejected (`None`). -/
theorem clean_geometry_retry_spec :
    (∀ (G : Type) (ops : GeomOps G) (fuel : Nat) (wkt : Option (List Char))
        (ff : Bool), 2 ≤ fuel →
        _clean_geometry ops fuel wkt ff = _clean_geometry ops 2 wkt ff) ∧
    (∀ (G : Type) (ops : GeomOps G) (wkt : Option (List Char)) (ff : Bool),
        ∃ r, _clean_geometry ops 2 wkt ff = some r) ∧
    (∀ (G : Type) (ops : GeomOps G) (w : List Char),
        ¬(w = [] ∨ ops.hasPolygon w = false) →
        ops.isValid (ops.norm w) = false →
        ¬(ops.bufferDump (ops.norm w) = [] ∨
          ops.hasPolygon (ops.bufferDump (ops.norm w)) = false) →
        ops.isValid (ops.norm (ops.bufferDump (ops.norm w))) = true →
        ops.isEmpty (ops.norm (ops.bufferDump (ops.norm w))) = false →
        ¬(|ops.geodArea0 (ops.norm (ops.bufferDump (ops.norm w)))|
            < MIN_GEOM_AREA) →
        _clean_geometry ops 2 (some w) false =
          some (some (ops.dump (ops.norm (ops.bufferDump (ops.norm w)))))) ∧
    (∀ (G : Type) (ops : GeomOps G) (w : List Char),
        ¬(w = [] ∨ ops.hasPolygon w = false) →
        ops.isValid (ops.norm w) = false →
        ¬(ops.bufferDump (ops.norm w) = [] ∨
          ops.hasPolygon (ops.bufferDump (ops.norm w)) = false) →
        ops.isValid (ops.norm (ops.bufferDump (ops.norm w))) = false →
        _clean_geometry ops 2 (some w) false = some none) := by
  refine ⟨?_, ?_, ?_, ?_⟩
  · intro G ops fuel wkt ff hf
    cases ff with
    | true =>
        rw [clean_geometry_fuel_true ops fuel wkt (by omega),
          clean_geometry_fuel_true ops 2 wkt (by omega)]
    | false =>
        match fuel, hf with
        | 2, _ => rfl
        | f + 3, _ =>
            cases wkt with
            | none => rfl
            | some w =>
                rw [_clean_geometry, _clean_geometry]
                by_cases h1 : w = [] ∨ ops.hasPolygon w = false
                · rw [if_pos h1, if_pos h1]
                · rw [if_neg h1, if_neg h1]
                  by_cases h2 : ops.isValid (ops.norm w) = false
                  · rw [if_pos h2, if_pos h2]
                    simp only [Bool.false_eq_true, if_false]
                    rw [clean_geometry_fuel_true ops (f + 2) _ (by omega),
                      clean_geometry_fuel_true ops 1 _ (by omega)]
                  · rw [if_neg h2, if_neg h2]
  · intro G ops wkt ff
    cases wkt with
    | none => exact ⟨none, rfl⟩
    | some w =>
        rw [_clean_geometry]
        by_cases h1 : w = [] ∨ ops.hasPolygon w = false
        · rw [if_pos h1]; exact ⟨some w, rfl⟩
        · rw [if_neg h1]
          by_cases h2 : ops.isValid (ops.norm w) = false
          · rw [if_pos h2]
            cases ff with
            | true => simp only [if_pos rfl]; exact ⟨none, rfl⟩
            | false =>
                simp only [Bool.false_eq_true, if_false]
                rw [_clean_geometry]
                by_cases h3 : ops.bufferDump (ops.norm w) = [] ∨
                    ops.hasPolygon (ops.bufferDump (ops.norm w)) = false
                · rw [if_pos h3]; exact ⟨_, rfl⟩
                · rw [if_neg h3]
                  by_cases h4 : ops.isValid (ops.norm
                      (ops.bufferDump (ops.norm w))) = false
                  · rw [if_pos h4, if_pos rfl]; exact ⟨none, rfl⟩
                  · rw [if_neg h4]
                    by_cases h5 : ops.isEmpty (ops.norm
                        (ops.bufferDump (ops.norm w))) = true
                    · rw [if_pos h5]; exact ⟨none, rfl⟩
                    · rw [if_neg h5]
                      by_cases h6 : |ops.geodArea0 (ops.norm
                          (ops.bufferDump (ops.norm w)))| < MIN_GEOM_AREA
                      · rw [if_pos h6]; exact ⟨none, rfl⟩
                      · rw [if_neg h6]; exact ⟨_, rfl⟩
          · rw [if_neg h2]
            by_cases h5 : ops.isEmpty (ops.norm w) = true
            · rw [if_pos h5]; exact ⟨none, rfl⟩
            · rw [if_neg h5]
              by_cases h6 : |ops.geodArea0 (ops.norm w)| < MIN_GEOM_AREA
              · rw [if_pos h6]; exact ⟨none, rfl⟩
              · rw [if_neg h6]; exact ⟨_, rfl⟩
  · intro G ops w h1 h2 h3 h4 h5 h6
    rw [_clean_geometry, if_neg h1, if_pos h2]
    simp only [Bool.false_eq_true, if_false]
    rw [_clean_geometry, if_neg h3, if_neg (by rw [h4]; simp),
      if_neg (by rw [h5]; simp), if_neg h6]
  · intro G ops w h1 h2 h3 h4
    rw [_clean_geometry, if_neg h1, if_pos h2]
    simp only [Bool.false_eq_true, if_false]
    rw [_clean_geometry, if_neg h3, if_pos h4, if_pos rfl]

/-- Concrete instantiation of `clean_geometry_retry_spec`: with `opsRepair`
the input `"A"` is invalid, repaired to `"B"`, and accepted after exactly
one repair (any stack budget ≥ 2 gives the same result); with `opsBroken`
the repair is still invalid and the input is rejected. -/
theorem clean_geometry_retry_witness :
    (_clean_geometry opsRepair 7 (some ("A".toList)) false =
      _clean_geometry opsRepair 2 (some ("A".toList)) false) ∧
    (_clean_geometry opsRepair 2 (some ("A".toList)) false =
      some (some ("B".toList))) ∧
    (_clean_geometry opsBroken 2 (some ("A".toList)) false = some none) := by
  refine ⟨clean_geometry_retry_spec.1 (List Char) opsRepair 7 _ false
      (by norm_num), ?_, ?_⟩
  · have h := clean_geometry_retry_spec.2.2.1 (List Char) opsRepair
      ("A".toList) (by decide) (by decide) (by decide) (by decide)
      (by decide) (by decide)
    exact h
  · have h := clean_geometry_retry_spec.2.2.2 (List Char) opsBroken
      ("A".toList) (by decide) (by decide) (by decide) (by decide)
    exact h

/-! ### Malformed rows in the Feature Sharder -/

/-- Claim C2 refuted at a concrete input: the line `abc,a=b` contains no
`')'`, so `str.rindex` raises an uncaught `ValueError` — the record is not
silently skipped and processing of the stream aborts (the well-formed
following line is never processed: the state at raise time has no files). -/
theorem parse_no_paren_counterexample :
    _parse_row rowNoParen = .error () ∧
    split_osmium_text_file cleanNone [] true [rowNoParen, rowAB] =
      .error (initSplitState true) ∧
    (initSplitState true).files = [] :=
  ⟨rfl, rfl, rfl⟩

/-- Claim C2 amended: a line whose attribute-tag list after the last `')'`
is empty or missing is silently skipped (the sharder continues with the
rest of the stream and writes nothing for it); but a line containing no
`')'` makes `_parse_row` raise (`str.rindex` `ValueError`), which escapes
`split_osmium_text_file` and aborts the stream. -/
theorem parse_malformed_amended :
    (∀ row : List Char, rfindParen row = none → _parse_row row = .error ()) ∧
    (∀ (clean : Option (List Char) → Option (List Char))
        (roads_tags : List (List Char × (List Char × List Char)))
        (process_roads : Bool) (st : SplitState) (row : List Char)
        (rest : List (List Char)), rfindParen row = none →
        splitRows clean roads_tags process_roads st (row :: rest)
          = .error st) ∧
    (∀ (row : List Char) (i : Nat), rfindParen row = some i →
        (splitComma (listSlice row (i + 1 + 1) (row.length - 1)) = [] ∨
          (splitComma (listSlice row (i + 1 + 1) (row.length - 1))).head?
            = some []) →
        _parse_row row = .ok none) ∧
    (∀ (clean : Option (List Char) → Option (List Char))
        (roads_tags : List (List Char × (List Char × List Char)))
        (process_roads : Bool) (st : SplitState) (row : List Char)
        (rest : List (List Char)), _parse_row row = .ok none →
        splitRows clean roads_tags process_roads st (row :: rest)
          = splitRows clean roads_tags process_roads st rest) := by
  have part1 : ∀ row : List Char, rfindParen row = none →
      _parse_row row = .error () := by
    intro row hfind
    rw [_parse_row, hfind]
  have part3 : ∀ (row : List Char) (i : Nat), rfindParen row = some i →
      (splitComma (listSlice row (i + 1 + 1) (row.length - 1)) = [] ∨
        (splitComma (listSlice row (i + 1 + 1) (row.length - 1))).head?
          = some []) →
      _parse_row row = .ok none := by
    intro row i hfind hcond
    rw [_parse_row, hfind]
    simp only
    rw [if_pos hcond]
  refine ⟨part1, ?_, part3, ?_⟩
  · intro clean roads_tags process_roads st row rest hfind
    rw [splitRows, part1 row hfind]
  · intro clean roads_tags process_roads st row rest hok
    rw [splitRows, hok]

/-- Concrete instantiation of `parse_malformed_amended`: the no-parenthesis
line raises, the line `X)` (tag list missing) is skipped. -/
theorem parse_malformed_amended_witness :
    _parse_row rowNoParen = .error () ∧
    _parse_row ("X)\n".toList) = .ok none :=
  ⟨parse_malformed_amended.1 rowNoParen rfl,
    parse_malformed_amended.2.2.1 ("X)\n".toList) 1 rfl (by decide)⟩

/-! ### Sharder state lemmas -/

theorem lookupA_setA_self {β : Type} (k : List Char) (v : β) :
    ∀ l : List (List Char × β), lookupA k (setA k v l) = some v := by
  intro l
  induction l with
  | nil => simp [setA, lookupA]
  | cons p rest ih =>
      rw [setA]
      by_cases hk : k = p.1
      · rw [if_pos hk, lookupA, if_pos rfl]
      · rw [if_neg hk, lookupA, if_neg hk]
        exact ih

theorem lookupA_setA_ne {β : Type} (k k2 : List Char) (v : β)
    (hne : k ≠ k2) : ∀ l : List (List Char × β),
    lookupA k (setA k2 v l) = lookupA k l := by
  intro l
  induction l with
  | nil => simp [setA, lookupA, hne]
  | cons p rest ih =>
      rw [setA]
      by_cases hk : k2 = p.1
      · rw [if_pos hk, lookupA, lookupA, if_neg hne,
          if_neg (fun he => hne (he.trans hk.symm))]
      · rw [if_neg hk, lookupA, lookupA]
        by_cases hk2 : k = p.1
        · rw [if_pos hk2, if_pos hk2]
        · rw [if_neg hk2, if_neg hk2]
          exact ih

theorem appendToFile_length (line : List Char) :
    ∀ (files : List ShardFile) (fid : Nat),
    (appendToFile files fid line).length = files.length := by
  intro files
  induction files with
  | nil => intro fid; rfl
  | cons f rest ih =>
      intro fid
      cases fid with
      | zero => rfl
      | succ fid => simp [appendToFile, ih fid]

theorem roadsStep_shards (clean : Option (List Char) → Option (List Char))
    (roads_tags : List (List Char × (List Char × List Char)))
    (process_roads : Bool) (st : SplitState) (w : Option (List Char))
    (t : List Char) :
    (roadsStep clean roads_tags process_roads st w t).1.fileIndices
        = st.fileIndices ∧
    (roadsStep clean roads_tags process_roads st w t).1.handlers
        = st.handlers ∧
    (roadsStep clean roads_tags process_roads st w t).1.files = st.files ∧
    (roadsStep clean roads_tags process_roads st w t).1.roadsOpen
        = st.roadsOpen ∧
    (roadsStep clean roads_tags process_roads st w t).1.roadsClosed
        = st.roadsClosed ∧
    (roadsStep clean roads_tags process_roads st w t).1.shardCloseCalls
        = st.shardCloseCalls := by
  rw [roadsStep]
  by_cases hc : process_roads = true ∧ (lookupA t roads_tags).isSome = true
  · rw [if_pos hc]
    cases clean w with
    | none => exact ⟨rfl, rfl, rfl, rfl, rfl, rfl⟩
    | some x => exact ⟨rfl, rfl, rfl, rfl, rfl, rfl⟩
  · rw [if_neg hc]
    exact ⟨rfl, rfl, rfl, rfl, rfl, rfl⟩

theorem createIfNeeded_quiet (st : SplitState) (t : List Char) :
    (createIfNeeded st t).roads = st.roads ∧
    (createIfNeeded st t).roadsOpen = st.roadsOpen ∧
    (createIfNeeded st t).roadsClosed = st.roadsClosed ∧
    (createIfNeeded st t).shardCloseCalls = st.shardCloseCalls := by
  rw [createIfNeeded]
  split_ifs <;> exact ⟨rfl, rfl, rfl, rfl⟩

theorem processTag_quiet (clean : Option (List Char) → Option (List Char))
    (roads_tags : List (List Char × (List Char × List Char)))
    (process_roads : Bool) (st : SplitState) (w : Option (List Char))
    (t : List Char) :
    (processTag clean roads_tags process_roads st w t).1.roadsOpen
        = st.roadsOpen ∧
    (processTag clean roads_tags process_roads st w t).1.roadsClosed
        = st.roadsClosed ∧
    (processTag clean roads_tags process_roads st w t).1.shardCloseCalls
        = st.shardCloseCalls := by
  rw [processTag]
  have h := roadsStep_shards clean roads_tags process_roads
    (writeShardRow (createIfNeeded st t) t w) w t
  have hq := createIfNeeded_quiet st t
  refine ⟨h.2.2.2.1.trans ?_, h.2.2.2.2.1.trans ?_, h.2.2.2.2.2.trans ?_⟩
  · exact hq.2.1
  · exact hq.2.2.1
  · exact hq.2.2.2

theorem processTag_counter_le
    (clean : Option (List Char) → Option (List Char))
    (roads_tags : List (List Char × (List Char × List Char)))
    (process_roads : Bool) (st : SplitState) (w : Option (List Char))
    (t : List Char)
    (h : ∀ t2 i, lookupA t2 st.fileIndices = some i → i ≤ max_rows) :
    ∀ t2 i, lookupA t2
        (processTag clean roads_tags process_roads st w t).1.fileIndices
      = some i → i ≤ max_rows := by
  intro t2 i hli
  rw [processTag,
    (roadsStep_shards clean roads_tags process_roads _ w t).1] at hli
  have hw : (writeShardRow (createIfNeeded st t) t w).fileIndices =
      setA t ((lookupA t (createIfNeeded st t).fileIndices).getD 0 + 1)
        (createIfNeeded st t).fileIndices := rfl
  rw [hw] at hli
  by_cases ht2 : t2 = t
  · subst ht2
    rw [lookupA_setA_self] at hli
    have hi := Option.some.inj hli
    rw [← hi]
    rw [createIfNeeded]
    by_cases hcr : lookupA t2 st.handlers = none
        ∨ max_rows ≤ (lookupA t2 st.fileIndices).getD 0
    · rw [if_pos hcr]
      dsimp only
      rw [lookupA_setA_self]
      show 0 + 1 ≤ max_rows
      decide
    · rw [if_neg hcr]
      push_neg at hcr
      cases hlo : lookupA t2 st.fileIndices with
      | none => decide
      | some v =>
          have hv := hcr.2
          rw [hlo] at hv
          have hgd : (some v).getD 0 = v := rfl
          rw [hgd] at hv ⊢
          omega
  · rw [lookupA_setA_ne t2 t _ ht2] at hli
    rw [createIfNeeded] at hli
    by_cases hcr : lookupA t st.handlers = none
        ∨ max_rows ≤ (lookupA t st.fileIndices).getD 0
    · rw [if_pos hcr] at hli
      dsimp only at hli
      rw [lookupA_setA_ne t2 t _ ht2] at hli
      exact h t2 i hli
    · rw [if_neg hcr] at hli
      exact h t2 i hli

theorem processTags_counter_le
    (clean : Option (List Char) → Option (List Char))
    (roads_tags : List (List Char × (List Char × List Char)))
    (process_roads : Bool) :
    ∀ (tags : List (List Char)) (p : SplitState × Option (List Char)),
    (∀ t2 i, lookupA t2 p.1.fileIndices = some i → i ≤ max_rows) →
    ∀ t2 i, lookupA t2
        (processTags clean roads_tags process_roads p tags).1.fileIndices
      = some i → i ≤ max_rows := by
  intro tags
  induction tags with
  | nil => intro p hp; exact hp
  | cons t ts ih =>
      intro p hp
      rw [processTags]
      exact ih _ (processTag_counter_le clean roads_tags process_roads
        p.1 p.2 t hp)

theorem processTags_quiet
    (clean : Option (List Char) → Option (List Char))
    (roads_tags : List (List Char × (List Char × List Char)))
    (process_roads : Bool) :
    ∀ (tags : List (List Char)) (p : SplitState × Option (List Char)),
    (processTags clean roads_tags process_roads p tags).1.roadsOpen
        = p.1.roadsOpen ∧
    (processTags clean roads_tags process_roads p tags).1.roadsClosed
        = p.1.roadsClosed ∧
    (processTags clean roads_tags process_roads p tags).1.shardCloseCalls
        = p.1.shardCloseCalls := by
  intro tags
  induction tags with
  | nil => intro p; exact ⟨rfl, rfl, rfl⟩
  | cons t ts ih =>
      intro p
      rw [processTags]
      have h1 := ih (processTag clean roads_tags process_roads p.1 p.2 t)
      have h2 := processTag_quiet clean roads_tags process_roads p.1 p.2 t
      exact ⟨h1.1.trans h2.1, h1.2.1.trans h2.2.1, h1.2.2.trans h2.2.2⟩

theorem splitRows_counter_le
    (clean : Option (List Char) → Option (List Char))
    (roads_tags : List (List Char × (List Char × List Char)))
    (process_roads : Bool) :
    ∀ (rows : List (List Char)) (st st2 : SplitState),
    splitRows clean roads_tags process_roads st rows = .ok st2 →
    (∀ t2 i, lookupA t2 st.fileIndices = some i → i ≤ max_rows) →
    ∀ t2 i, lookupA t2 st2.fileIndices = some i → i ≤ max_rows := by
  intro rows
  induction rows with
  | nil =>
      intro st st2 hok hp
      rw [splitRows] at hok
      cases hok
      exact hp
  | cons row rest ih =>
      intro st st2 hok hp
      rw [splitRows] at hok
      cases hparse : _parse_row row with
      | error e => rw [hparse] at hok; exact absurd hok (by simp)
      | ok v =>
          rw [hparse] at hok
          cases v with
          | none => exact ih st st2 hok hp
          | some pr =>
              exact ih _ st2 hok
                (processTags_counter_le clean roads_tags process_roads
                  pr.2 (st, some pr.1) hp)

theorem splitRows_quiet
    (clean : Option (List Char) → Option (List Char))
    (roads_tags : List (List Char × (List Char × List Char)))
    (process_roads : Bool) :
    ∀ (rows : List (List Char)) (st st2 : SplitState),
    (splitRows clean roads_tags process_roads st rows = .ok st2 ∨
      splitRows clean roads_tags process_roads st rows = .error st2) →
    st2.roadsOpen = st.roadsOpen ∧ st2.roadsClosed = st.roadsClosed ∧
      st2.shardCloseCalls = st.shardCloseCalls := by
  intro rows
  induction rows with
  | nil =>
      intro st st2 hres
      rw [splitRows] at hres
      rcases hres with hok | herr
      · cases hok; exact ⟨rfl, rfl, rfl⟩
      · exact absurd herr (by simp)
  | cons row rest ih =>
      intro st st2 hres
      rw [splitRows] at hres
      cases hparse : _parse_row row with
      | error e =>
          rw [hparse] at hres
          rcases hres with hok | herr
          · exact absurd hok (by simp)
          · cases herr; exact ⟨rfl, rfl, rfl⟩
      | ok v =>
          rw [hparse] at hres
          cases v with
          | none => exact ih st st2 hres
          | some pr =>
              have h1 := ih _ st2 hres
              have h2 := processTags_quiet clean roads_tags process_roads
                pr.2 (st, some pr.1)
              exact ⟨h1.1.trans h2.1, h1.2.1.trans h2.2.1,
                h1.2.2.trans h2.2.2⟩

/-- Claim C5 refuted at a concrete input: processing one well-formed row
opens one shard file, yet the function performs no `close()` call on any
shard handle (`shardCloseCalls` stays empty — the source contains no such
call, neither at end-of-stream nor when a rotation replaces a handle); and
on an abnormal exit (a no-parenthesis row) the function aborts with the
road-table handle opened (`roadsOpen`) but never closed (`roadsClosed`
still false). -/
theorem split_handles_counterexample :
    (okState (split_osmium_text_file cleanNone [] true [rowAB])).files.length
      = 1 ∧
    (okState (split_osmium_text_file cleanNone [] true
      [rowAB])).shardCloseCalls = [] ∧
    split_osmium_text_file cleanNone [] true [rowNoParen]
      = .error (initSplitState true) ∧
    (initSplitState true).roadsOpen = true ∧
    (initSplitState true).roadsClosed = false :=
  ⟨rfl, rfl, rfl, rfl, rfl⟩

/-- Claim C5 amended: on normal stream exhaustion the road-table handle is
closed exactly when road processing is enabled, and no shard handle is ever
explicitly closed by the function (current handles and rotation-replaced
handles alike are left to the runtime); on an abnormal (exception) exit not
even the road-table handle is closed. -/
theorem split_handles_amended :
    (∀ (clean : Option (List Char) → Option (List Char))
        (roads_tags : List (List Char × (List Char × List Char)))
        (process_roads : Bool) (rows : List (List Char)) (st : SplitState),
        split_osmium_text_file clean roads_tags process_roads rows = .ok st →
        st.roadsClosed = process_roads ∧ st.shardCloseCalls = []) ∧
    (∀ (clean : Option (List Char) → Option (List Char))
        (roads_tags : List (List Char × (List Char × List Char)))
        (process_roads : Bool) (rows : List (List Char)) (st : SplitState),
        split_osmium_text_file clean roads_tags process_roads rows
          = .error st →
        st.roadsClosed = false ∧ st.shardCloseCalls = []) := by
  constructor
  · intro clean roads_tags process_roads rows st hok
    rw [split_osmium_text_file] at hok
    cases hres : splitRows clean roads_tags process_roads
        (initSplitState process_roads) rows with
    | error e => rw [hres] at hok; exact absurd hok (by simp)
    | ok s0 =>
        rw [hres] at hok
        have hq := splitRows_quiet clean roads_tags process_roads rows
          (initSplitState process_roads) s0 (Or.inl hres)
        have hst : st = finishSplit process_roads s0 := by
          cases hok; rfl
        subst hst
        rw [finishSplit]
        cases process_roads with
        | true =>
            rw [if_pos rfl]
            exact ⟨rfl, hq.2.2⟩
        | false =>
            rw [if_neg (by simp)]
            exact ⟨hq.2.1.trans rfl, hq.2.2⟩
  · intro clean roads_tags process_roads rows st herr
    rw [split_osmium_text_file] at herr
    cases hres : splitRows clean roads_tags process_roads
        (initSplitState process_roads) rows with
    | error e =>
        rw [hres] at herr
        have hq := splitRows_quiet clean roads_tags process_roads rows
          (initSplitState process_roads) e (Or.inr hres)
        have hst : st = e := by cases herr; rfl
        subst hst
        exact ⟨hq.2.1.trans rfl, hq.2.2⟩
    | ok s0 => rw [hres] at herr; exact absurd herr (by simp)

/-- Concrete instantiation of `split_handles_amended`: the one-row run
closes the road table and performs no shard close call. -/
theorem split_handles_amended_witness :
    (finishSplit true (stateAB0 1)).roadsClosed = true ∧
    (finishSplit true (stateAB0 1)).shardCloseCalls = [] := by
  have h := split_handles_amended.1 cleanNone [] true [rowAB]
    (finishSplit true (stateAB0 1)) rfl
  exact ⟨h.1, h.2⟩

/-- Claim C3 evaluated at the failing input: the record `W) a=b,c=d`
(geometry text `W)`, tags `a=b` then `c=d`) with `a=b` road-mapped.  The
inner loop rebinds its `wkt` variable to the cleaner's result, so the shard
row later written for `c=d` is not the originally parsed WKT: when the
cleaner rejects (`None`), the `c=d` shard receives the literal text
`"None",`; when the cleaner returns a modified WKT `CL`, the `c=d` shard
receives `"CL",`.  Only the `a=b` shard row (written before cleaning)
carries the original WKT. -/
theorem split_wkt_clobber_eval :
    (okState (split_osmium_text_file cleanNone roadsAB true
        [rowCD])).files.map ShardFile.rows
      = [[shardLine (some wktAB)], [shardLine none]] ∧
    shardLine none = "\"None\",\n".toList ∧
    shardLine none ≠ shardLine (some wktAB) ∧
    (okState (split_osmium_text_file (fun _ => some ("CL".toList)) roadsAB
        true [rowCD])).files.map ShardFile.rows
      = [[shardLine (some wktAB)], [shardLine (some ("CL".toList))]] ∧
    shardLine (some ("CL".toList)) ≠ shardLine (some wktAB) ∧
    (okState (split_osmium_text_file (fun _ => some ("CL".toList)) roadsAB
        true [rowCD])).roads
      = [roadLine ("CL".toList) ("highway".toList, "road".toList)] :=
  ⟨rfl, rfl, by decide, rfl, by decide, rfl⟩

/-! ### The capped single-tag run of the Feature Sharder -/

theorem parse_rowAB : _parse_row rowAB = .ok (some (wktAB, [tagAB])) := rfl

theorem stepAB_init : stepAB (initSplitState true) = stateAB0 1 := rfl

theorem stepAB_state0 {r : Nat} (hr : r < max_rows) :
    stepAB (stateAB0 r) = stateAB0 (r + 1) := by
  have hcr : ¬(lookupA tagAB (stateAB0 r).handlers = none
      ∨ max_rows ≤ (lookupA tagAB (stateAB0 r).fileIndices).getD 0) := by
    simp [stateAB0, lookupA]
    omega
  show (processTag cleanNone [] true (stateAB0 r) (some wktAB) tagAB).1
      = stateAB0 (r + 1)
  rw [processTag]
  simp only [roadsStep, createIfNeeded, writeShardRow, if_neg hcr]
  simp [stateAB0, lookupA, setA, appendToFile, List.replicate_succ']

theorem stepAB_rotate : stepAB (stateAB0 max_rows) = stateAB1 1 := by
  have hcr : lookupA tagAB (stateAB0 max_rows).handlers = none
      ∨ max_rows ≤ (lookupA tagAB (stateAB0 max_rows).fileIndices).getD 0 := by
    right
    simp [stateAB0, lookupA]
  show (processTag cleanNone [] true (stateAB0 max_rows) (some wktAB) tagAB).1
      = stateAB1 1
  rw [processTag]
  simp only [roadsStep, createIfNeeded, writeShardRow, if_pos hcr]
  simp [stateAB0, stateAB1, lookupA, setA, appendToFile]

theorem stepAB_state1 {r : Nat} (hr : r < max_rows) :
    stepAB (stateAB1 r) = stateAB1 (r + 1) := by
  have hcr : ¬(lookupA tagAB (stateAB1 r).handlers = none
      ∨ max_rows ≤ (lookupA tagAB (stateAB1 r).fileIndices).getD 0) := by
    simp [stateAB1, lookupA]
    omega
  show (processTag cleanNone [] true (stateAB1 r) (some wktAB) tagAB).1
      = stateAB1 (r + 1)
  rw [processTag]
  simp only [roadsStep, createIfNeeded, writeShardRow, if_neg hcr]
  simp [stateAB1, lookupA, setA, appendToFile, List.replicate_succ']

theorem stepAB_iter0 : ∀ r, 1 ≤ r → r ≤ max_rows →
    stepAB^[r] (initSplitState true) = stateAB0 r := by
  intro r
  induction r with
  | zero => intro h1 _; omega
  | succ n ih =>
      intro _ hle
      rcases Nat.eq_zero_or_pos n with h0 | hpos
      · subst h0
        simp only [Function.iterate_succ_apply', Function.iterate_zero_apply]
        exact stepAB_init
      · rw [Function.iterate_succ_apply', ih hpos (by omega)]
        exact stepAB_state0 (by omega)

theorem stepAB_iter1 : ∀ r, 1 ≤ r → r ≤ max_rows →
    stepAB^[max_rows + r] (initSplitState true) = stateAB1 r := by
  intro r
  induction r with
  | zero => intro h1 _; omega
  | succ n ih =>
      intro _ hle
      rcases Nat.eq_zero_or_pos n with h0 | hpos
      · subst h0
        rw [Function.iterate_succ_apply',
          stepAB_iter0 max_rows (by decide) (Nat.le_refl _)]
        exact stepAB_rotate
      · have he : max_rows + (n + 1) = (max_rows + n) + 1 := by omega
        rw [he, Function.iterate_succ_apply', ih hpos (by omega)]
        exact stepAB_state1 (by omega)

theorem splitRows_replicate : ∀ (n : Nat) (st : SplitState),
    splitRows cleanNone [] true st (List.replicate n rowAB)
      = .ok (stepAB^[n] st) := by
  intro n
  induction n with
  | zero => intro st; rfl
  | succ n ih =>
      intro st
      rw [List.replicate_succ, splitRows, parse_rowAB]
      show splitRows cleanNone [] true
          (processTags cleanNone [] true (st, some wktAB) [tagAB]).1
          (List.replicate n rowAB) = .ok (stepAB^[n + 1] st)
      rw [ih, Function.iterate_succ_apply]
      rfl

theorem runAB_1500000 :
    split_osmium_text_file cleanNone [] true (List.replicate 1500000 rowAB)
      = .ok (finishSplit true (stateAB1 500001)) := by
  rw [split_osmium_text_file, splitRows_replicate]
  have he : (1500000 : Nat) = max_rows + 500001 := by decide
  rw [he, stepAB_iter1 500001 (by decide) (by decide)]

/-- Claim C1 refuted at its own concrete input: feeding 1,500,000
well-formed rows all tagged `a=b` produces exactly 2 shard files, but with
999,999 and 500,001 data rows — not 1,000,000 and 500,000 as claimed —
because `max_rows = MAX_ROWS - 1` combined with the `>=` rotation test caps
a shard at `MAX_ROWS − 1 = 999,999` rows. -/
theorem split_cap_1500000_counterexample :
    (okState (split_osmium_text_file cleanNone [] true
        (List.replicate 1500000 rowAB))).files.map
        (fun f => f.rows.length) = [999999, 500001] ∧
    ¬((okState (split_osmium_text_file cleanNone [] true
        (List.replicate 1500000 rowAB))).files.map
        (fun f => f.rows.length) = [1000000, 500000]) := by
  have hfiles : (okState (split_osmium_text_file cleanNone [] true
      (List.replicate 1500000 rowAB))).files.map
      (fun f => f.rows.length) = [999999, 500001] := by
    rw [runAB_1500000]
    show (finishSplit true (stateAB1 500001)).files.map
      (fun f => f.rows.length) = [999999, 500001]
    rw [finishSplit, if_pos rfl]
    show (stateAB1 500001).files.map (fun f => f.rows.length)
      = [999999, 500001]
    rw [stateAB1]
    show [(List.replicate max_rows (shardLine (some wktAB))).length,
      (List.replicate 500001 (shardLine (some wktAB))).length]
      = [999999, 500001]
    rw [List.length_replicate, List.length_replicate]
    rfl
  refine ⟨hfiles, ?_⟩
  rw [hfiles]
  intro hcon
  have h1 : (999999 : Nat) = 1000000 := (List.cons.injEq _ _ _ _ ▸ hcon).1
  omega

theorem finishSplit_fileIndices (process_roads : Bool) (st : SplitState) :
    (finishSplit process_roads st).fileIndices = st.fileIndices := by
  rw [finishSplit]
  split_ifs <;> rfl

/-- Claim C1 amended: the 1,500,000-row single-tag stream produces exactly
2 shard files with `max_rows = MAX_ROWS − 1 = 999,999` rows in the first
and 500,001 in the second; in general every shard's row counter never
exceeds `MAX_ROWS − 1`, and whenever the rotation condition holds (no
handler yet, or counter at the cap) processing a tag opens one fresh shard
whose counter, reset to 0 and incremented by the row just written, is 1. -/
theorem split_cap_amended :
    ((okState (split_osmium_text_file cleanNone [] true
        (List.replicate 1500000 rowAB))).files.map
        (fun f => f.rows.length) = [max_rows, 500001] ∧
      max_rows = MAX_ROWS - 1 ∧ max_rows = 999999) ∧
    (∀ (clean : Option (List Char) → Option (List Char))
        (roads_tags : List (List Char × (List Char × List Char)))
        (process_roads : Bool) (rows : List (List Char)) (st : SplitState),
        split_osmium_text_file clean roads_tags process_roads rows = .ok st →
        ∀ t i, lookupA t st.fileIndices = some i → i ≤ max_rows) ∧
    (∀ (clean : Option (List Char) → Option (List Char))
        (roads_tags : List (List Char × (List Char × List Char)))
        (process_roads : Bool) (st : SplitState) (w : Option (List Char))
        (t : List Char),
        (lookupA t st.handlers = none
          ∨ max_rows ≤ (lookupA t st.fileIndices).getD 0) →
        (processTag clean roads_tags process_roads st w t).1.files.length
            = st.files.length + 1 ∧
        lookupA t
            (processTag clean roads_tags process_roads st w t).1.fileIndices
          = some 1) := by
  refine ⟨⟨?_, rfl, rfl⟩, ?_, ?_⟩
  · have h := split_cap_1500000_counterexample.1
    rw [h]
    rfl
  · intro clean roads_tags process_roads rows st hok t i hli
    rw [split_osmium_text_file] at hok
    cases hres : splitRows clean roads_tags process_roads
        (initSplitState process_roads) rows with
    | error e => rw [hres] at hok; exact absurd hok (by simp)
    | ok s0 =>
        rw [hres] at hok
        have hst : st = finishSplit process_roads s0 := by cases hok; rfl
        subst hst
        rw [finishSplit_fileIndices] at hli
        refine splitRows_counter_le clean roads_tags process_roads rows
          (initSplitState process_roads) s0 hres ?_ t i hli
        intro t2 i2 h2
        exact absurd h2 (by simp [initSplitState, lookupA])
  · intro clean roads_tags process_roads st w t hcr
    rw [processTag]
    have hs := roadsStep_shards clean roads_tags process_roads
      (writeShardRow (createIfNeeded st t) t w) w t
    constructor
    · rw [hs.2.2.1]
      show (appendToFile (createIfNeeded st t).files
        ((lookupA t (createIfNeeded st t).handlers).getD 0)
        (shardLine w)).length = st.files.length + 1
      rw [appendToFile_length, createIfNeeded, if_pos hcr]
      simp
    · rw [hs.1]
      show lookupA t (setA t
        ((lookupA t (createIfNeeded st t).fileIndices).getD 0 + 1)
        (createIfNeeded st t).fileIndices) = some 1
      rw [lookupA_setA_self, createIfNeeded, if_pos hcr]
      dsimp only
      rw [lookupA_setA_self]
      rfl

/-- Concrete instantiation of `split_cap_amended`: the counter reached by a
one-row run is within the cap. -/
theorem split_cap_amended_witness : (1 : Nat) ≤ max_rows :=
  split_cap_amended.2.1 cleanNone [] true [rowAB]
    (finishSplit true (stateAB0 1)) rfl tagAB 1 rfl
